import Mathlib

/-! Verification of the file-indexing repository's core modules against their
specification. The embedding below translates `content_classifier.py`
(filename-similarity grouping and category-label normalisation) and
`data_processing.py` (operation planning and execution) into Lean. Machine
floats of Python (`difflib`'s ratio and the threshold) are modelled as `Rat`;
the filesystem is a finite explicit state; Python exceptions are `Except`. -/

namespace ContentClassifier

/-- Length of the longest common prefix of two character lists. -/
def lcpLen : List Char → List Char → Nat
  | a :: as, b :: bs => if a = b then lcpLen as bs + 1 else 0
  | _, _ => 0

/-- Length of the longest common run of `A` and `B` starting at `i`, `j` and
staying below the bounds `ahi`, `bhi` (the diagonal extension used by
`difflib.SequenceMatcher`'s longest-match search). -/
def runLen (A B : List Char) (ahi bhi i j : Nat) : Nat :=
  lcpLen ((A.take ahi).drop i) ((B.take bhi).drop j)

/-- `difflib.SequenceMatcher.find_longest_match` over the slices
`A[alo:ahi]`, `B[blo:bhi]` (no junk: the autojunk heuristic needs 200+
characters and filenames are far shorter). The scan keeps the first
`(i, j)` in lexicographic order whose run is strictly longer than the best
so far, which is exactly difflib's earliest-in-`a`-then-earliest-in-`b`
maximal block. -/
def longestMatch (A B : List Char) (alo ahi blo bhi : Nat) : Nat × Nat × Nat :=
  (List.range' alo (ahi - alo)).foldl (fun best i =>
    (List.range' blo (bhi - blo)).foldl (fun best j =>
      let k := runLen A B ahi bhi i j
      if best.2.2 < k then (i, j, k) else best) best) (alo, blo, 0)

/-- Total size of `difflib.SequenceMatcher.get_matching_blocks`: the longest
match splits the ranges and both sides are processed recursively. The `fuel`
argument bounds the recursion depth; every split strictly shrinks
`ahi - alo`, so `A.length + 1` fuel always completes the recursion. -/
def matchingTotal (A B : List Char) : Nat → Nat → Nat → Nat → Nat → Nat
  | 0, _, _, _, _ => 0
  | fuel + 1, alo, ahi, blo, bhi =>
    let m := longestMatch A B alo ahi blo bhi
    if m.2.2 = 0 then 0
    else
      matchingTotal A B fuel alo m.1 blo m.2.1 + m.2.2 +
        matchingTotal A B fuel (m.1 + m.2.2) ahi (m.2.1 + m.2.2) bhi

/-- `difflib.SequenceMatcher(None, a, b).ratio()`: twice the matched total
over the total length, and 1 when both strings are empty. -/
def simRatio (a b : String) : Rat :=
  let A := a.data
  let B := b.data
  let total := A.length + B.length
  if total = 0 then 1
  else (2 * (matchingTotal A B (A.length + 1) 0 A.length 0 B.length) : Rat) / (total : Rat)

/-- `os.path.basename`: the component after the last separator, that is the
longest separator-free suffix of the path. -/
def baseName (p : String) : String :=
  String.mk ((p.data.reverse.takeWhile (fun c => ¬ (c = '/'))).reverse)

/-- The inner loop of `group_similar_filenames` (lines 16-21): path `j`
joins the current group when it is unassigned and its basename is similar
enough to the seed's basename `fname`. -/
def scanStep (file_paths filenames : List String) (threshold : Rat) (fname : String)
    (gb : List String × List Bool) (j : Nat) : List String × List Bool :=
  if gb.2.getD j false then gb
  else if simRatio fname (filenames.getD j "") ≥ threshold then
    (gb.1 ++ [file_paths.getD j ""], gb.2.set j true)
  else gb

/-- The outer loop of `group_similar_filenames` (lines 11-22): an unassigned
index `i` seeds a new group and scans every later index. -/
def seedStep (file_paths filenames : List String) (threshold : Rat) (n : Nat)
    (acc : List (List String) × List Bool) (i : Nat) : List (List String) × List Bool :=
  if acc.2.getD i false then acc
  else
    let fname := filenames.getD i ""
    let seeded : List String × List Bool := ([file_paths.getD i ""], acc.2.set i true)
    let scanned := List.foldl (scanStep file_paths filenames threshold fname) seeded
      (List.range' (i + 1) (n - (i + 1)))
    (acc.1 ++ [scanned.1], scanned.2)

/-- `group_similar_filenames` (content_classifier.py lines 6-24): greedy
single-pass clustering over the input order with an `assigned` flag list;
each unassigned seed `i` collects every later unassigned `j` whose basename
is similar enough to the seed's. -/
def group_similar_filenames (file_paths : List String) (threshold : Rat) :
    List (List String) :=
  let filenames := file_paths.map baseName
  let n := filenames.length
  (List.foldl (seedStep file_paths filenames threshold n)
    ([], List.replicate n false) (List.range n)).1

/-- The whitespace characters stripped by Python's `str.strip()` and matched
by the regex class `\s` (the ASCII ones; the inputs of interest are ASCII
and Hangul text). -/
def pyWS (c : Char) : Bool :=
  c = ' ' ∨ c = '\t' ∨ c = '\n' ∨ c = '\x0d' ∨ c = '\x0b' ∨ c = '\x0c'

/-- Drop leading Python whitespace. -/
def stripL (l : List Char) : List Char := l.dropWhile pyWS

/-- Drop trailing Python whitespace. -/
def stripR (l : List Char) : List Char := (l.reverse.dropWhile pyWS).reverse

/-- Python `str.strip()`. -/
def pyStrip (l : List Char) : List Char := stripR (stripL l)

/-- `split("\n")[0]`: everything before the first newline. -/
def firstLine (l : List Char) : List Char := l.takeWhile (fun c => ¬ (c = '\n'))

/-- Does `pre` begin `l`? (`re.match` of the literal part of an anchored
pattern.) -/
def leadsWith : List Char → List Char → Bool
  | [], _ => true
  | _ :: _, [] => false
  | a :: as, b :: bs => a == b && leadsWith as bs

/-- The optional `[:：]?` part of the label patterns. -/
def dropColon : List Char → List Char
  | c :: rest => if c = ':' ∨ c = '：' then rest else c :: rest
  | [] => []

/-- One `re.sub(r"^<label>[:：]?\s*", "", line)` application: when the
literal label begins the line, remove it together with an optional colon and
the following whitespace; otherwise the line is unchanged. -/
def stripLabel (lab : List Char) (l : List Char) : List Char :=
  if leadsWith lab l then (dropColon (l.drop lab.length)).dropWhile pyWS else l

/-- The quote characters removed by `re.sub(r'[\"“”‘’]', '', line)`. -/
def quoteChars : List Char := ['"', '“', '”', '‘', '’']

/-- The filesystem-reserved characters removed by
`re.sub(r'[\\/:*?"<>|]', '', line)`. -/
def reservedChars : List Char := ['\\', '/', ':', '*', '?', '"', '<', '>', '|']

/-- Remove every quote character. -/
def removeQuotes (l : List Char) : List Char :=
  l.filter (fun c => ¬ (c ∈ quoteChars))

/-- Remove every filesystem-reserved character. -/
def removeReserved (l : List Char) : List Char :=
  l.filter (fun c => ¬ (c ∈ reservedChars))

/-- A Hangul syllable, the class `[가-힣]` of the readable-script check. -/
def isHangulChar (c : Char) : Bool :=
  0xAC00 ≤ c.toNat ∧ c.toNat ≤ 0xD7A3

/-- Python `str.lower()` restricted to ASCII (the banned words compared
against are ASCII or Hangul, and Hangul has no case). -/
def lowerChar (c : Char) : Char := c.toLower

/-- The banned-word list of line 40: labels meaning other/unknown. -/
def bannedWords : List (List Char) :=
  ["기타".data, "알 수 없음".data, "모름".data, "unknown".data]

/-- The substitution pipeline of `clean_category` (lines 28-36) on the raw
text's characters: first line of the stripped text, the label prefixes in
program order, then quote and reserved-character removal. The third
substitution (line 31) anchors on two unpaired surrogate escapes, which no
valid Unicode text can contain, so it is the identity and is omitted. -/
def cleanLine (l0 : List Char) : List Char :=
  removeReserved (removeQuotes
    (stripLabel "예시 출력".data
      (stripLabel "출력".data
        (stripLabel "파일 이름".data
          (stripLabel "답을 입력하세요".data
            (stripLabel "답변".data
              (firstLine (pyStrip l0))))))))

/-- The checks and the result of `clean_category` (lines 38-43) on the
cleaned characters: reject when no Hangul remains, when the line is empty or
a banned word or shorter than two characters once stripped; otherwise return
the stripped line. -/
def cleanCore (l0 : List Char) : Option (List Char) :=
  let line := cleanLine l0
  if line.any isHangulChar = true then
    if line = [] ∨ line.map lowerChar ∈ bannedWords ∨ (pyStrip line).length < 2 then
      none
    else some (pyStrip line)
  else none

/-- `clean_category` (content_classifier.py lines 27-43). -/
def clean_category (raw_text : String) : Option String :=
  (cleanCore raw_text.data).map String.mk

end ContentClassifier

namespace DataProcessing

/-- A filesystem path, as its components (`os.path.join` appends one). -/
abbrev Path := List String

/-- A Python exception, at the granularity the claims need. `nonterm` is not
an exception: it marks that the unbounded collision loop did not finish
within the fuel given to its bounded model. -/
inductive PyErr where
  | fileNotFound
  | fileExists
  | permissionDenied
  | crossDevice
  | typeError
  | nonterm
  deriving DecidableEq, Repr

/-- The link strategy of an operation. -/
inductive LinkType where
  | hardlink
  | symlink
  deriving DecidableEq, Repr

/-- The link type as it appears inside the executor's messages. -/
def LinkType.render : LinkType → String
  | .hardlink => "hardlink"
  | .symlink => "symlink"

/-- A planned file operation (the dict built at lines 350-356). -/
structure Operation where
  source : Path
  destination : Path
  link_type : LinkType
  folder_name : String
  new_file_name : String
  deriving DecidableEq, Repr

/-- One metadata record of `data_list`. `foldername` / `filename` are `none`
when classification failed (`None` in Python; records from the
filename-classification flow lack the `filename` key altogether, which the
option also covers). -/
structure FileRecord where
  file_path : Path
  foldername : Option String
  filename : Option String
  deriving DecidableEq, Repr

/-- The filesystem state: the existing paths, which of them are directories,
the (static) device of every path, and which directory creations and link
creations the OS would refuse (permissions). -/
structure FS where
  paths : List Path
  dirs : List Path
  dev : Path → Nat
  denyDir : Path → Bool
  denyLink : Path → Path → Bool

/-- `os.makedirs(dir_path, exist_ok=True)`: tolerate an existing directory,
raise if the path exists as a non-directory or if its creation is refused.
Creation of intermediate ancestors is abstracted away: only the full
directory path is ever consulted again by the code. -/
def makedirs (fs : FS) (p : Path) : Except PyErr FS :=
  if p ∈ fs.paths then
    if p ∈ fs.dirs then .ok fs else .error .fileExists
  else if fs.denyDir p then .error .permissionDenied
  else .ok { fs with paths := p :: fs.paths, dirs := p :: fs.dirs }

/-- `os.stat(p).st_dev`. -/
def osStat (fs : FS) (p : Path) : Except PyErr Nat :=
  if p ∈ fs.paths then .ok (fs.dev p) else .error .fileNotFound

/-- `os.path.dirname` of a joined path: all components but the last. -/
def dirname (p : Path) : Path := p.dropLast

/-- `os.link(source, destination)`: the source must exist and not be a
directory, the destination must be free, both ends must live on one device,
and the OS may refuse. On success the destination becomes an existing
non-directory entry. -/
def osLink (fs : FS) (source destination : Path) : Except PyErr FS :=
  if ¬ source ∈ fs.paths then .error .fileNotFound
  else if source ∈ fs.dirs then .error .permissionDenied
  else if destination ∈ fs.paths then .error .fileExists
  else if ¬ fs.dev source = fs.dev (dirname destination) then .error .crossDevice
  else if fs.denyLink source destination then .error .permissionDenied
  else .ok { fs with paths := destination :: fs.paths }

/-- `os.symlink(source, destination)`: a dangling source is allowed, the
destination must be free, and the OS may refuse. -/
def osSymlink (fs : FS) (source destination : Path) : Except PyErr FS :=
  if destination ∈ fs.paths then .error .fileExists
  else if fs.denyLink source destination then .error .permissionDenied
  else .ok { fs with paths := destination :: fs.paths }

/-- The extension part of `os.path.splitext` on a single component: from the
last dot on, unless every character before that dot is itself a dot. -/
def extOf (cs : List Char) : List Char :=
  let r := cs.reverse
  let extR := r.takeWhile (fun c => ¬ (c = '.'))
  match r.dropWhile (fun c => ¬ (c = '.')) with
  | [] => []
  | _ :: beforeR =>
    if beforeR.any (fun c => ¬ (c = '.')) then '.' :: extR.reverse else []

/-- `os.path.splitext(file_path)[1]`. -/
def splitext1 (p : Path) : String := String.mk (extOf (p.getLastD "").data)

/-- The candidate filename after `k` collision rounds: the original
`filename + ext` for `k = 0`, `f"{filename}_{k}" + ext` past it. -/
def candName (filename ext : String) : Nat → String
  | 0 => filename ++ ext
  | k + 1 => filename ++ "_" ++ toString (k + 1) ++ ext

/-- The `while new_file_path in renamed_files or os.path.exists(new_file_path)`
loop of `compute_operations` (lines 331-336). `fuel` bounds the unbounded
Python loop, `none` standing for not finishing within the bound; `counter`
is the next suffix to try and `name` / `path` the current candidate. -/
def resolveLoop (taken : Path → Bool) (dir_path : Path) (filename ext : String) :
    Nat → Nat → String → Path → Option (String × Path)
  | 0, _, _, _ => none
  | fuel + 1, counter, name, path =>
    if taken path then
      resolveLoop taken dir_path filename ext fuel (counter + 1)
        (filename ++ "_" ++ toString counter ++ ext)
        (dir_path ++ [filename ++ "_" ++ toString counter ++ ext])
    else some (name, path)

/-- One iteration of the `for data in data_list` loop of `compute_operations`
(lines 313-358), threading the filesystem and the planning state. A source
already processed yields no operation; a `none` `filename` or `foldername`
raises at its use site (Python: `None + str` and `join(..., None)` are
TypeErrors, a missing key a KeyError) and the exception propagates, the
planner having no handler. -/
def planRecord (fuel : Nat) (new_path : Path) (fs : FS)
    (renamed_files processed_files : List Path) (data : FileRecord) :
    Except PyErr (Option Operation × FS × List Path × List Path) :=
  if data.file_path ∈ processed_files then
    .ok (none, fs, renamed_files, processed_files)
  else
    let processed_files := data.file_path :: processed_files
    match data.filename with
    | none => .error .typeError
    | some filename =>
      let new_file_name := filename ++ splitext1 data.file_path
      match data.foldername with
      | none => .error .typeError
      | some folder_name =>
        let dir_path := new_path ++ [folder_name]
        let new_file_path := dir_path ++ [new_file_name]
        match makedirs fs dir_path with
        | .error e => .error e
        | .ok fs =>
          match resolveLoop (fun p => p ∈ renamed_files ∨ p ∈ fs.paths)
              dir_path filename (splitext1 data.file_path) fuel 1
              new_file_name new_file_path with
          | none => .error .nonterm
          | some (new_file_name, new_file_path) =>
            match
              (if data.file_path ∈ fs.dirs then .ok .symlink
               else
                 match osStat fs data.file_path with
                 | .error e => .error e
                 | .ok source_dev =>
                   match osStat fs (dirname new_file_path) with
                   | .error e => .error e
                   | .ok dest_dev =>
                     if source_dev = dest_dev then .ok LinkType.hardlink
                     else .ok LinkType.symlink : Except PyErr LinkType) with
            | .error e => .error e
            | .ok link_type =>
              .ok (some { source := data.file_path, destination := new_file_path,
                          link_type := link_type, folder_name := folder_name,
                          new_file_name := new_file_name },
                   fs, new_file_path :: renamed_files, processed_files)

/-- `compute_operations` (lines 310-360): fold `planRecord` over the record
list collecting the operations; an exception aborts the whole call. -/
def compute_operations (fuel : Nat) (data_list : List FileRecord) (new_path : Path)
    (fs : FS) (renamed_files processed_files : List Path) :
    Except PyErr (List Operation × FS × List Path × List Path) :=
  match data_list with
  | [] => .ok ([], fs, renamed_files, processed_files)
  | data :: rest =>
    match planRecord fuel new_path fs renamed_files processed_files data with
    | .error e => .error e
    | .ok (opt, fs1, r1, p1) =>
      match compute_operations fuel rest new_path fs1 r1 p1 with
      | .error e => .error e
      | .ok (ops, fs2, r2, p2) => .ok (opt.toList ++ ops, fs2, r2, p2)

/-- A sequence of `compute_operations` calls sharing one planning state
(`renamed_files`, `processed_files`) and one filesystem, as the pipeline
performs across content-type batches. -/
def plan_calls (fuel : Nat) :
    List (List FileRecord × Path) → FS → List Path → List Path →
    Except PyErr (List (List Operation) × FS × List Path × List Path)
  | [], fs, r, p => .ok ([], fs, r, p)
  | (data_list, new_path) :: rest, fs, r, p =>
    match compute_operations fuel data_list new_path fs r p with
    | .error e => .error e
    | .ok (ops, fs1, r1, p1) =>
      match plan_calls fuel rest fs1 r1 p1 with
      | .error e => .error e
      | .ok (opss, fs2, r2, p2) => .ok (ops :: opss, fs2, r2, p2)

/-- A path as Python renders it inside messages. -/
def pathStr (p : Path) : String := String.intercalate "/" p

/-- The text of the exception inside the executor's error message. -/
def errText : PyErr → String
  | .fileNotFound => "No such file or directory"
  | .fileExists => "File exists"
  | .permissionDenied => "Permission denied"
  | .crossDevice => "Invalid cross-device link"
  | .typeError => "unsupported operand type"
  | .nonterm => "nontermination"

/-- The message emitted for an operation under `dry_run` (line 374). -/
def dryRunMessage (op : Operation) : String :=
  "Dry run: would create " ++ op.link_type.render ++ " from '" ++
    pathStr op.source ++ "' to '" ++ pathStr op.destination ++ "'"

/-- The message emitted after a successful link creation (line 381). -/
def createdMessage (op : Operation) : String :=
  "Created " ++ op.link_type.render ++ " from '" ++
    pathStr op.source ++ "' to '" ++ pathStr op.destination ++ "'"

/-- The message emitted when the link creation raised (line 383). -/
def errorMessage (op : Operation) (e : PyErr) : String :=
  "Error creating " ++ op.link_type.render ++ " from '" ++
    pathStr op.source ++ "' to '" ++ pathStr op.destination ++ "': " ++ errText e

/-- `execute_operations` (lines 362-391): per operation, `os.makedirs` runs
before the dry-run check and outside the try block; then either the dry-run
message is emitted, or the link creation is attempted and its exception
caught and turned into an error message. The returned strings model the
print/log sink, one entry per operation reached. -/
def execute_operations (fs : FS) (operations : List Operation) (dry_run : Bool) :
    Except PyErr (FS × List String) :=
  match operations with
  | [] => .ok (fs, [])
  | op :: rest =>
    match makedirs fs (dirname op.destination) with
    | .error e => .error e
    | .ok fs1 =>
      if dry_run then
        match execute_operations fs1 rest dry_run with
        | .error e => .error e
        | .ok (fs2, msgs) => .ok (fs2, dryRunMessage op :: msgs)
      else
        match
          (match op.link_type with
           | .hardlink => osLink fs1 op.source op.destination
           | .symlink => osSymlink fs1 op.source op.destination) with
        | .ok fs2 =>
          match execute_operations fs2 rest dry_run with
          | .error e => .error e
          | .ok (fs3, msgs) => .ok (fs3, createdMessage op :: msgs)
        | .error e =>
          match execute_operations fs1 rest dry_run with
          | .error e2 => .error e2
          | .ok (fs3, msgs) => .ok (fs3, errorMessage op e :: msgs)

end DataProcessing

namespace DataProcessing

/-- The collision loop only returns a candidate that is free: not taken by
`renamed_files` and not existing on disk. -/
theorem resolveLoop_free {taken : Path → Bool} {dir_path : Path} {filename ext : String}
    {fuel counter : Nat} {name : String} {path : Path} {nm : String} {pth : Path}
    (h : resolveLoop taken dir_path filename ext fuel counter name path = some (nm, pth)) :
    taken pth = false := by
  induction fuel generalizing counter name path with
  | zero => simp [resolveLoop] at h
  | succ fuel ih =>
    rw [resolveLoop] at h
    cases hb : taken path with
    | true =>
      rw [hb] at h
      simp only [if_true] at h
      exact ih h
    | false =>
      rw [hb] at h
      simp only [Bool.false_eq_true, if_false] at h
      cases h
      exact hb

/-- The collision loop, started as `compute_operations` starts it (counter 1,
candidate `filename + ext`), returns the first free candidate of the
sequence `filename + ext`, `filename_1 + ext`, `filename_2 + ext`, ... -/
theorem resolveLoop_spec (taken : Path → Bool) (dir_path : Path) (filename ext : String)
    (fuel j : Nat) (nm : String) (pth : Path)
    (h : resolveLoop taken dir_path filename ext fuel (j + 1) (candName filename ext j)
      (dir_path ++ [candName filename ext j]) = some (nm, pth)) :
    ∃ k, j ≤ k ∧ nm = candName filename ext k ∧
      pth = dir_path ++ [candName filename ext k] ∧
      taken (dir_path ++ [candName filename ext k]) = false ∧
      ∀ m, j ≤ m → m < k → taken (dir_path ++ [candName filename ext m]) = true := by
  induction fuel generalizing j with
  | zero => simp [resolveLoop] at h
  | succ fuel ih =>
    rw [resolveLoop] at h
    cases hb : taken (dir_path ++ [candName filename ext j]) with
    | true =>
      rw [hb] at h
      simp only [if_true] at h
      have h' : resolveLoop taken dir_path filename ext fuel (j + 1 + 1)
          (candName filename ext (j + 1))
          (dir_path ++ [candName filename ext (j + 1)]) = some (nm, pth) := by
        simpa [candName] using h
      obtain ⟨k, hk, h1, h2, h3, h4⟩ := ih (j + 1) h'
      refine ⟨k, Nat.le_of_succ_le hk, h1, h2, h3, ?_⟩
      intro m hm1 hm2
      rcases Nat.eq_or_lt_of_le hm1 with hm | hm
      · rw [← hm]; exact hb
      · exact h4 m hm hm2
    | false =>
      rw [hb] at h
      simp only [Bool.false_eq_true, if_false] at h
      cases h
      exact ⟨j, Nat.le_refl j, rfl, rfl, hb, fun m hm1 hm2 => absurd hm1 (Nat.not_le_of_lt hm2)⟩

end DataProcessing

namespace DataProcessing

/-- A successful `os.stat` returns the path's device. -/
theorem osStat_ok {fs : FS} {p : Path} {d : Nat} (h : osStat fs p = .ok d) :
    d = fs.dev p := by
  rw [osStat] at h
  split at h
  · cases h; rfl
  · cases h

/-- Shape of a skipped record: a source already in `processed_files` yields
no operation and leaves the whole state unchanged. -/
theorem planRecord_ok_none {fuel : Nat} {new_path : Path} {fs : FS}
    {renamed processed : List Path} {data : FileRecord} {fs2 : FS} {r2 p2 : List Path}
    (h : planRecord fuel new_path fs renamed processed data = .ok (none, fs2, r2, p2)) :
    data.file_path ∈ processed ∧ fs2 = fs ∧ r2 = renamed ∧ p2 = processed := by
  rw [planRecord] at h
  split at h
  · cases h; exact ⟨by assumption, rfl, rfl, rfl⟩
  · split at h
    · cases h
    · split at h
      · cases h
      · dsimp only [] at h
        split at h
        · cases h
        · split at h
          · cases h
          · split at h
            · cases h
            · cases h

/-- Shape of a planned record: the operation's source is the record's path,
freshly added to `processed_files`; its destination was free with respect to
the incoming `renamed_files` and is pushed onto it; and its link type is the
directory/device decision of lines 338-347, taken on the filesystem as the
planner left it (`fs2`, the state right after `os.makedirs`). -/
theorem planRecord_ok_some {fuel : Nat} {new_path : Path} {fs : FS}
    {renamed processed : List Path} {data : FileRecord} {op : Operation}
    {fs2 : FS} {r2 p2 : List Path}
    (h : planRecord fuel new_path fs renamed processed data = .ok (some op, fs2, r2, p2)) :
    op.source = data.file_path ∧ data.file_path ∉ processed ∧
    r2 = op.destination :: renamed ∧ p2 = data.file_path :: processed ∧
    op.destination ∉ renamed ∧
    op.link_type = (if op.source ∈ fs2.dirs then LinkType.symlink
      else if fs2.dev op.source = fs2.dev (dirname op.destination) then LinkType.hardlink
      else LinkType.symlink) := by
  rw [planRecord] at h
  split at h
  · cases h
  case isFalse hproc =>
    split at h
    · cases h
    case h_2 filename hfn =>
      split at h
      · cases h
      case h_2 folder_name hfo =>
        dsimp only [] at h
        split at h
        · cases h
        case h_2 fs1 hmk =>
          split at h
          · cases h
          case h_2 pr nm pth hres =>
            have hfree := resolveLoop_free hres
            simp only [decide_eq_false_iff_not, not_or] at hfree
            split at h
            · cases h
            case h_2 link_type hlt =>
              cases h
              refine ⟨rfl, hproc, rfl, rfl, hfree.1, ?_⟩
              split at hlt
              case isTrue hdir =>
                cases hlt
                rw [if_pos hdir]
              case isFalse hdir =>
                rw [if_neg hdir]
                split at hlt
                · cases hlt
                case h_2 source_dev hs1 =>
                  split at hlt
                  · cases hlt
                  case h_2 dest_dev hs2 =>
                    have e1 := osStat_ok hs1
                    have e2 := osStat_ok hs2
                    subst e1
                    subst e2
                    split at hlt
                    case isTrue hdev =>
                      cases hlt
                      rw [if_pos hdev]
                    case isFalse hdev =>
                      cases hlt
                      rw [if_neg hdev]

end DataProcessing

namespace DataProcessing

/-- Within one `compute_operations` call, every planned destination is fresh
with respect to the incoming `renamed_files`, and the returned operations
have pairwise-distinct destinations. -/
theorem compute_operations_dest_inv {fuel : Nat} {dl : List FileRecord} {new_path : Path}
    {fs : FS} {renamed processed : List Path} {ops : List Operation}
    {fs2 : FS} {r2 p2 : List Path}
    (h : compute_operations fuel dl new_path fs renamed processed = .ok (ops, fs2, r2, p2)) :
    ops.Pairwise (fun a b => a.destination ≠ b.destination) ∧
    ∀ op ∈ ops, op.destination ∉ renamed := by
  induction dl generalizing fs renamed processed ops with
  | nil =>
    rw [compute_operations] at h
    cases h
    exact ⟨List.Pairwise.nil, by simp⟩
  | cons data rest ih =>
    rw [compute_operations] at h
    split at h
    · cases h
    case h_2 opt fs1 r1 p1 hplan =>
      split at h
      · cases h
      case h_2 ops' fs2' r2' p2' hrest =>
        cases h
        cases opt with
        | none =>
          obtain ⟨_, _, hr, _⟩ := planRecord_ok_none hplan
          subst hr
          simpa using ih hrest
        | some op =>
          obtain ⟨_, _, hr, _, hfree, _⟩ := planRecord_ok_some hplan
          subst hr
          obtain ⟨hpw, hnotin⟩ := ih hrest
          simp only [Option.toList_some, List.singleton_append]
          constructor
          · exact List.Pairwise.cons
              (fun b hb => fun e => (hnotin b hb) (e ▸ List.mem_cons_self _ _)) hpw
          · intro op2 hop2
            rcases List.mem_cons.mp hop2 with he | hop2
            · subst he; exact hfree
            · exact fun hmem => (hnotin _ hop2) (List.mem_cons_of_mem _ hmem)

/-- Within one `compute_operations` call, every planned source is fresh with
respect to the incoming `processed_files`, the sources are pairwise
distinct, and every incoming and planned source ends in the outgoing
`processed_files`. -/
theorem compute_operations_src_inv {fuel : Nat} {dl : List FileRecord} {new_path : Path}
    {fs : FS} {renamed processed : List Path} {ops : List Operation}
    {fs2 : FS} {r2 p2 : List Path}
    (h : compute_operations fuel dl new_path fs renamed processed = .ok (ops, fs2, r2, p2)) :
    ops.Pairwise (fun a b => a.source ≠ b.source) ∧
    (∀ op ∈ ops, op.source ∉ processed) ∧
    processed ⊆ p2 ∧ (∀ op ∈ ops, op.source ∈ p2) := by
  induction dl generalizing fs renamed processed ops with
  | nil =>
    rw [compute_operations] at h
    cases h
    exact ⟨List.Pairwise.nil, by simp, fun a ha => ha, by simp⟩
  | cons data rest ih =>
    rw [compute_operations] at h
    split at h
    · cases h
    case h_2 opt fs1 r1 p1 hplan =>
      split at h
      · cases h
      case h_2 ops' fs2' r2' p2' hrest =>
        cases h
        cases opt with
        | none =>
          obtain ⟨_, _, _, hp⟩ := planRecord_ok_none hplan
          subst hp
          simpa using ih hrest
        | some op =>
          obtain ⟨hsrc, hnp, _, hp, _, _⟩ := planRecord_ok_some hplan
          subst hp
          obtain ⟨hpw, hfresh, hsub, hin⟩ := ih hrest
          simp only [Option.toList_some, List.singleton_append]
          refine ⟨?_, ?_, ?_, ?_⟩
          · refine List.Pairwise.cons (fun b hb => ?_) hpw
            intro e
            exact (hfresh b hb) (by rw [← e, hsrc]; exact List.mem_cons_self _ _)
          · intro op2 hop2
            rcases List.mem_cons.mp hop2 with he | hop2
            · subst he; rw [hsrc]; exact hnp
            · exact fun hmem => (hfresh _ hop2) (List.mem_cons_of_mem _ hmem)
          · exact fun a ha => hsub (List.mem_cons_of_mem _ ha)
          · intro op2 hop2
            rcases List.mem_cons.mp hop2 with he | hop2
            · subst he; rw [hsrc]; exact hsub (List.mem_cons_self _ _)
            · exact hin _ hop2

end DataProcessing

namespace DataProcessing

/-- A concrete filesystem: a source file, the destination root, a `docs`
folder already holding `foo.txt`, everything on one device, nothing denied. -/
def fooFS : FS :=
  { paths := [["src", "orig.txt"], ["dest"], ["dest", "docs"], ["dest", "docs", "foo.txt"]],
    dirs := [["src"], ["dest"], ["dest", "docs"]],
    dev := fun _ => 0, denyDir := fun _ => false, denyLink := fun _ _ => false }

/-- A record whose generated filename collides with the existing `foo.txt`. -/
def fooRecord : FileRecord :=
  { file_path := ["src", "orig.txt"], foldername := some "docs", filename := some "foo" }

/-- The operation the planner produces for `fooRecord` on `fooFS`. -/
def fooOp : Operation :=
  { source := ["src", "orig.txt"], destination := ["dest", "docs", "foo_1.txt"],
    link_type := .hardlink, folder_name := "docs", new_file_name := "foo_1.txt" }

/-- A record of the pure-classification flow whose classification failed:
`foldername` is null and the `filename` key is absent. -/
def nullRecord : FileRecord :=
  { file_path := ["a", "x.txt"], foldername := none, filename := none }

/-- C3: the claim says the planner skips a record whose foldername or
filename is null or absent and keeps planning the remaining records. The
code has no such check: evaluating `compute_operations` at a single
null-classified record raises a TypeError (Python: `None + str`), aborting
the whole call, instead of skipping the record. -/
theorem c3_null_record_raises :
    compute_operations 9 [nullRecord] ["dest"] fooFS [] [] = .error .typeError := rfl

/-- C4: over any sequence of `compute_operations` calls sharing one planning
state, each call's operations have pairwise-distinct destinations, all
operations ever returned have pairwise-distinct sources, and no returned
operation has a source that was already in `processed_files` when the
sequence started. -/
theorem c4_state_invariants (fuel : Nat) (calls : List (List FileRecord × Path))
    (fs : FS) (renamed processed : List Path) (opss : List (List Operation))
    (fs2 : FS) (r2 p2 : List Path)
    (h : plan_calls fuel calls fs renamed processed = .ok (opss, fs2, r2, p2)) :
    (∀ ops ∈ opss, ops.Pairwise (fun a b => a.destination ≠ b.destination)) ∧
    opss.flatten.Pairwise (fun a b => a.source ≠ b.source) ∧
    (∀ op ∈ opss.flatten, op.source ∉ processed) := by
  induction calls generalizing fs renamed processed opss with
  | nil =>
    rw [plan_calls] at h
    cases h
    exact ⟨by simp, by simp [List.flatten], by simp [List.flatten]⟩
  | cons call rest ih =>
    match call with
    | (data_list, new_path) =>
      rw [plan_calls] at h
      split at h
      · cases h
      case h_2 ops fs1 r1 p1 hcomp =>
        split at h
        · cases h
        case h_2 opss' fs2' r2' p2' hrest =>
          cases h
          obtain ⟨hdpw, _⟩ := compute_operations_dest_inv hcomp
          obtain ⟨hspw, hfresh, hsub, hend⟩ := compute_operations_src_inv hcomp
          obtain ⟨ih1, ih2, ih3⟩ := ih _ _ _ _ hrest
          refine ⟨?_, ?_, ?_⟩
          · intro ops2 hops2
            rcases List.mem_cons.mp hops2 with he | hops2
            · subst he; exact hdpw
            · exact ih1 _ hops2
          · rw [List.flatten_cons, List.pairwise_append]
            refine ⟨hspw, ih2, fun a ha b hb => ?_⟩
            intro e
            exact (ih3 b hb) (e ▸ hend a ha)
          · intro op hop
            rw [List.flatten_cons] at hop
            rcases List.mem_append.mp hop with hop | hop
            · exact hfresh op hop
            · exact fun hmem => (ih3 op hop) (hsub hmem)

/-- C5: part one states the collision-resolution contract in general: when
the loop returns, the result is `filename + ext` if that was free, else the
first free `filename_k + ext` with `k` counting up from 1 (every earlier
candidate, the original included, was taken). Part two is the spec's
concrete case: with `foo.txt` already present under the destination root,
planning a record with filename `foo` yields destination `foo_1.txt`. -/
theorem c5_collision_resolution :
    (∀ (taken : Path → Bool) (dir_path : Path) (filename ext2 : String) (fuel : Nat)
        (nm : String) (pth : Path),
      resolveLoop taken dir_path filename ext2 fuel 1 (candName filename ext2 0)
          (dir_path ++ [candName filename ext2 0]) = some (nm, pth) →
      ∃ k, nm = candName filename ext2 k ∧ pth = dir_path ++ [candName filename ext2 k] ∧
        taken pth = false ∧
        ∀ m, m < k → taken (dir_path ++ [candName filename ext2 m]) = true) ∧
    (compute_operations 9 [fooRecord] ["dest"] fooFS [] []).map
        (fun r => r.1.map Operation.destination) = .ok [["dest", "docs", "foo_1.txt"]] := by
  constructor
  · intro taken dir_path filename ext2 fuel nm pth h
    obtain ⟨k, _, h1, h2, h3, h4⟩ := resolveLoop_spec taken dir_path filename ext2 fuel 0 nm pth h
    exact ⟨k, h1, h2, by rw [h2]; exact h3, fun m hm => h4 m (Nat.zero_le m) hm⟩
  · rfl

/-- C6: the link type of every planned operation follows the decision of
lines 338-347, taken on the filesystem state the planner consulted (`fs2`,
the state right after `os.makedirs`): a directory source always gets a
symlink; otherwise equal device identifiers of the source and of the
destination's directory give a hardlink and differing ones a symlink. -/
theorem c6_link_type_selection (fuel : Nat) (new_path : Path) (fs : FS)
    (renamed processed : List Path) (data : FileRecord) (op : Operation)
    (fs2 : FS) (r2 p2 : List Path)
    (h : planRecord fuel new_path fs renamed processed data = .ok (some op, fs2, r2, p2)) :
    op.link_type = (if op.source ∈ fs2.dirs then LinkType.symlink
      else if fs2.dev op.source = fs2.dev (dirname op.destination) then LinkType.hardlink
      else LinkType.symlink) :=
  (planRecord_ok_some h).2.2.2.2.2

/-- Concrete instantiation of `c6_link_type_selection`: a file source on the
same device as the destination directory receives a hardlink. -/
theorem c6_link_type_selection_witness :
    fooOp.link_type = (if fooOp.source ∈ fooFS.dirs then LinkType.symlink
      else if fooFS.dev fooOp.source = fooFS.dev (dirname fooOp.destination)
      then LinkType.hardlink else LinkType.symlink) :=
  c6_link_type_selection 9 ["dest"] fooFS [] [] fooRecord fooOp fooFS
    [["dest", "docs", "foo_1.txt"]] [["src", "orig.txt"]] rfl

end DataProcessing

namespace DataProcessing

/-- A successful `os.makedirs` only grows the filesystem, every entry it adds
is a directory, and existing directories stay. -/
theorem makedirs_ok {fs : FS} {d : Path} {fs1 : FS} (h : makedirs fs d = .ok fs1) :
    (∀ p ∈ fs1.paths, p ∈ fs.paths ∨ p ∈ fs1.dirs) ∧
    fs.dirs ⊆ fs1.dirs ∧ fs.paths ⊆ fs1.paths := by
  rw [makedirs] at h
  split at h
  · split at h
    · cases h
      exact ⟨fun p hp => Or.inl hp, fun a ha => ha, fun a ha => ha⟩
    · cases h
  · split at h
    · cases h
    · cases h
      refine ⟨fun p hp => ?_, fun a ha => List.mem_cons_of_mem _ ha,
        fun a ha => List.mem_cons_of_mem _ ha⟩
      rcases List.mem_cons.mp hp with he | hp
      · exact Or.inr (he ▸ List.mem_cons_self _ _)
      · exact Or.inl hp

/-- Directories only accumulate while the executor runs in dry-run mode. -/
theorem execute_operations_dry_dirs {fs : FS} {operations : List Operation}
    {fs2 : FS} {msgs : List String}
    (h : execute_operations fs operations true = .ok (fs2, msgs)) :
    fs.dirs ⊆ fs2.dirs := by
  induction operations generalizing fs msgs with
  | nil => rw [execute_operations] at h; cases h; exact fun a ha => ha
  | cons op rest ih =>
    rw [execute_operations] at h
    split at h
    · cases h
    case h_2 fs1 hmk =>
      simp only [if_true] at h
      split at h
      · cases h
      case h_2 fs2' msgs' hrest =>
        cases h
        exact fun a ha => ih hrest ((makedirs_ok hmk).2.1 ha)

/-- C1 (amended): under `dry_run=True` the executor emits exactly one
"would create" message per operation, in order, and creates no link and no
file: every filesystem entry present afterwards was either already there or
is a directory (created by the `os.makedirs` that runs before the dry-run
check). The claim's stronger reading, that a dry run performs no mutation
at all, fails: see the counterexample. -/
theorem c1_dry_run (fs : FS) (operations : List Operation) (fs2 : FS) (msgs : List String)
    (h : execute_operations fs operations true = .ok (fs2, msgs)) :
    msgs = operations.map dryRunMessage ∧
    ∀ p ∈ fs2.paths, p ∈ fs.paths ∨ p ∈ fs2.dirs := by
  induction operations generalizing fs msgs with
  | nil =>
    rw [execute_operations] at h
    cases h
    exact ⟨rfl, fun p hp => Or.inl hp⟩
  | cons op rest ih =>
    rw [execute_operations] at h
    split at h
    · cases h
    case h_2 fs1 hmk =>
      simp only [if_true] at h
      split at h
      · cases h
      case h_2 fs2' msgs' hrest =>
        cases h
        obtain ⟨hm, hp⟩ := ih _ _ hrest
        refine ⟨by rw [hm, List.map_cons], fun p hmem => ?_⟩
        rcases hp p hmem with h1 | h1
        · rcases (makedirs_ok hmk).1 p h1 with h2 | h2
          · exact Or.inl h2
          · exact Or.inr (execute_operations_dry_dirs hrest h2)
        · exact Or.inr h1

/-- An empty filesystem with nothing denied. -/
def emptyFS : FS :=
  { paths := [], dirs := [], dev := fun _ => 0,
    denyDir := fun _ => false, denyLink := fun _ _ => false }

/-- An operation whose destination directory does not exist yet. -/
def dryOp : Operation :=
  { source := ["s", "a.txt"], destination := ["d", "x", "b.txt"],
    link_type := .hardlink, folder_name := "x", new_file_name := "b.txt" }

/-- C1 as stated is false: executing `[dryOp]` on the empty filesystem with
`dry_run=True` creates the destination directory `d/x` — the dry run mutates
the filesystem. -/
theorem c1_dry_run_counterexample :
    (execute_operations emptyFS [dryOp] true).map (fun r => r.1.paths) = .ok [["d", "x"]] ∧
    emptyFS.paths = [] :=
  ⟨rfl, rfl⟩

/-- Concrete instantiation of `c1_dry_run` at `emptyFS` and `[dryOp]`. -/
theorem c1_dry_run_witness :
    [dryRunMessage dryOp] = [dryOp].map dryRunMessage ∧
    ∀ p ∈ [["d", "x"]], p ∈ emptyFS.paths ∨
      p ∈ [(["d", "x"] : Path)] :=
  c1_dry_run emptyFS [dryOp]
    { paths := [["d", "x"]], dirs := [["d", "x"]], dev := fun _ => 0,
      denyDir := fun _ => false, denyLink := fun _ _ => false }
    [dryRunMessage dryOp] rfl

/-- C2 (amended): when the executor returns (that is, every `os.makedirs`
succeeded), each operation — in order — gets exactly one result, the success
message or the caught link-creation error message for that operation; a link
failure does not stop the remaining operations. The claim's stronger
reading, that a destination-directory failure is also caught per-operation,
fails: `os.makedirs` runs outside the try block, and its exception escapes
the executor — see the counterexample. -/
theorem c2_failure_isolation (fs : FS) (operations : List Operation)
    (fs2 : FS) (msgs : List String)
    (h : execute_operations fs operations false = .ok (fs2, msgs)) :
    List.Forall₂ (fun op m => m = createdMessage op ∨ ∃ e, m = errorMessage op e)
      operations msgs := by
  induction operations generalizing fs msgs with
  | nil => rw [execute_operations] at h; cases h; exact List.Forall₂.nil
  | cons op rest ih =>
    rw [execute_operations] at h
    split at h
    · cases h
    case h_2 fs1 hmk =>
      simp only [Bool.false_eq_true, if_false] at h
      split at h
      case h_1 fs2' hlink =>
        split at h
        · cases h
        case h_2 fs3 msgs' hrest =>
          cases h
          exact List.Forall₂.cons (Or.inl rfl) (ih _ _ hrest)
      case h_2 e hlink =>
        split at h
        · cases h
        case h_2 fs3 msgs' hrest =>
          cases h
          exact List.Forall₂.cons (Or.inr ⟨e, rfl⟩) (ih _ _ hrest)

/-- A filesystem holding one source file, where creating the directory
`d/x` is denied (no permission). -/
def denyFS : FS :=
  { paths := [["s", "a.txt"]], dirs := [["s"]], dev := fun _ => 0,
    denyDir := fun p => decide (p = ["d", "x"]), denyLink := fun _ _ => false }

/-- An operation whose destination directory cannot be created. -/
def badDirOp : Operation :=
  { source := ["s", "a.txt"], destination := ["d", "x", "b.txt"],
    link_type := .hardlink, folder_name := "x", new_file_name := "b.txt" }

/-- An operation that succeeds on `denyFS` on its own. -/
def goodOp : Operation :=
  { source := ["s", "a.txt"], destination := ["d", "y", "a.txt"],
    link_type := .hardlink, folder_name := "y", new_file_name := "a.txt" }

/-- An operation whose source does not exist, so its hardlink creation
raises inside the try block. -/
def lostSrcOp : Operation :=
  { source := ["gone.txt"], destination := ["d", "y", "nope.txt"],
    link_type := .hardlink, folder_name := "y", new_file_name := "nope.txt" }

/-- C2 as stated is false: with the destination directory of the first
operation not creatable, the executor raises (`os.makedirs` is outside the
try block) and the second operation — which succeeds when run alone — is
never attempted and gets no result. -/
theorem c2_failure_isolation_counterexample :
    execute_operations denyFS [badDirOp, goodOp] false = .error .permissionDenied ∧
    (execute_operations denyFS [goodOp] false).map (fun r => r.2) =
      .ok [createdMessage goodOp] :=
  ⟨rfl, rfl⟩

/-- Concrete instantiation of `c2_failure_isolation`: a vanished source makes
its own operation fail with an error message, and the following operation is
still attempted and succeeds. -/
theorem c2_failure_isolation_witness :
    List.Forall₂ (fun op m => m = createdMessage op ∨ ∃ e, m = errorMessage op e)
      [lostSrcOp, goodOp]
      [errorMessage lostSrcOp .fileNotFound, createdMessage goodOp] :=
  c2_failure_isolation denyFS [lostSrcOp, goodOp]
    { paths := [["d", "y", "a.txt"], ["d", "y"], ["s", "a.txt"]],
      dirs := [["d", "y"], ["s"]], dev := fun _ => 0,
      denyDir := fun p => decide (p = ["d", "x"]), denyLink := fun _ _ => false }
    [errorMessage lostSrcOp .fileNotFound, createdMessage goodOp] rfl

end DataProcessing

namespace DataProcessing

/-- A filesystem with two source files and an empty `docs` destination
folder, everything on one device. -/
def abFS : FS :=
  { paths := [["s", "a.txt"], ["s", "b.txt"], ["dest"], ["dest", "docs"]],
    dirs := [["s"], ["dest"], ["dest", "docs"]],
    dev := fun _ => 0, denyDir := fun _ => false, denyLink := fun _ _ => false }

/-- First record: source `s/a.txt`, generated name `foo`. -/
def recA : FileRecord :=
  { file_path := ["s", "a.txt"], foldername := some "docs", filename := some "foo" }

/-- Second record: source `s/b.txt`, also generated name `foo`. -/
def recB : FileRecord :=
  { file_path := ["s", "b.txt"], foldername := some "docs", filename := some "foo" }

/-- The operation planned for `recA` in the first call. -/
def opA : Operation :=
  { source := ["s", "a.txt"], destination := ["dest", "docs", "foo.txt"],
    link_type := .hardlink, folder_name := "docs", new_file_name := "foo.txt" }

/-- The operation planned for `recB` in the second call (`recA`, repeated
there, is skipped; `recB` collides with `opA`'s destination). -/
def opB : Operation :=
  { source := ["s", "b.txt"], destination := ["dest", "docs", "foo_1.txt"],
    link_type := .hardlink, folder_name := "docs", new_file_name := "foo_1.txt" }

/-- Concrete instantiation of `c4_state_invariants` over two calls sharing
one planning state, the second call repeating an already-processed record. -/
theorem c4_state_invariants_witness :
    (∀ ops ∈ [[opA], [opB]], ops.Pairwise (fun a b => a.destination ≠ b.destination)) ∧
    ([[opA], [opB]] : List (List Operation)).flatten.Pairwise
      (fun a b => a.source ≠ b.source) ∧
    (∀ op ∈ ([[opA], [opB]] : List (List Operation)).flatten,
      op.source ∉ ([] : List Path)) :=
  c4_state_invariants 9 [([recA], ["dest"]), ([recA, recB], ["dest"])] abFS [] []
    [[opA], [opB]] abFS
    [["dest", "docs", "foo_1.txt"], ["dest", "docs", "foo.txt"]]
    [["s", "b.txt"], ["s", "a.txt"]] rfl

/-- Concrete instantiation of the first part of `c5_collision_resolution`:
with only `d/a.txt` taken, the loop settles on `a_1.txt`, the candidate
after one collision round. -/
theorem c5_collision_resolution_witness :
    ∃ k, "a_1.txt" = candName "a" ".txt" k ∧
      (["d", "a_1.txt"] : Path) = ["d"] ++ [candName "a" ".txt" k] ∧
      (fun p : Path => decide (p = ["d", "a.txt"])) ["d", "a_1.txt"] = false ∧
      ∀ m, m < k →
        (fun p : Path => decide (p = ["d", "a.txt"])) (["d"] ++ [candName "a" ".txt" m]) = true :=
  c5_collision_resolution.1 (fun p => decide (p = ["d", "a.txt"])) ["d"] "a" ".txt" 3
    "a_1.txt" ["d", "a_1.txt"] (by decide)

end DataProcessing

namespace ContentClassifier

/-- Membership survives `dropWhile`. -/
theorem mem_of_mem_dropWhile {p : Char → Bool} {l : List Char} {a : Char}
    (h : a ∈ l.dropWhile p) : a ∈ l := by
  induction l with
  | nil => exact absurd h (List.not_mem_nil a)
  | cons b t ih =>
    rw [List.dropWhile_cons] at h
    by_cases hb : p b = true
    · rw [if_pos hb] at h
      exact List.mem_cons_of_mem _ (ih h)
    · rw [if_neg hb] at h
      exact h

/-- An element that fails the predicate is kept by `dropWhile`. -/
theorem mem_dropWhile_of_mem {p : Char → Bool} {l : List Char} {a : Char}
    (h : a ∈ l) (ha : p a = false) : a ∈ l.dropWhile p := by
  induction l with
  | nil => exact absurd h (List.not_mem_nil a)
  | cons b t ih =>
    rw [List.dropWhile_cons]
    by_cases hb : p b = true
    · rw [if_pos hb]
      rcases List.mem_cons.mp h with he | h
      · exact absurd (he ▸ hb) (by rw [ha]; exact Bool.false_ne_true)
      · exact ih h
    · rw [if_neg hb]
      exact h

/-- `dropWhile` is idempotent. -/
theorem dropWhile_dropWhile {p : Char → Bool} {l : List Char} :
    (l.dropWhile p).dropWhile p = l.dropWhile p := by
  induction l with
  | nil => rfl
  | cons b t ih =>
    rw [List.dropWhile_cons]
    by_cases hb : p b = true
    · rw [if_pos hb]; exact ih
    · rw [if_neg hb, List.dropWhile_cons, if_neg hb]

/-- A left-stripped list stays left-stripped on any of its prefixes. -/
theorem dropWhile_eq_self_of_append {p : Char → Bool} {l pfx rest : List Char}
    (hl : l.dropWhile p = l) (he : l = pfx ++ rest) : pfx.dropWhile p = pfx := by
  cases pfx with
  | nil => rfl
  | cons a t =>
    rw [List.dropWhile_cons]
    cases hpa : p a with
    | false => simp
    | true =>
      exfalso
      rw [he, List.cons_append, List.dropWhile_cons, if_pos hpa] at hl
      have hlen := congrArg List.length hl
      have hle := (List.dropWhile_sublist (l := t ++ rest) p).length_le
      simp only [List.length_cons] at hlen
      omega

end ContentClassifier

namespace ContentClassifier

/-- Everything in the stripped list was in the original. -/
theorem mem_of_mem_pyStrip {l : List Char} {a : Char} (h : a ∈ pyStrip l) : a ∈ l := by
  rw [pyStrip, stripR, stripL] at h
  have h1 := List.mem_reverse.mp h
  have h2 := mem_of_mem_dropWhile h1
  exact mem_of_mem_dropWhile (List.mem_reverse.mp h2)

/-- A non-whitespace element survives stripping. -/
theorem mem_pyStrip_of_mem {l : List Char} {a : Char} (h : a ∈ l) (ha : pyWS a = false) :
    a ∈ pyStrip l := by
  rw [pyStrip, stripR, stripL]
  exact List.mem_reverse.mpr
    (mem_dropWhile_of_mem (List.mem_reverse.mpr (mem_dropWhile_of_mem h ha)) ha)

/-- The right strip is a prefix: the original is the stripped part followed
by the stripped-off whitespace tail. -/
theorem stripR_append (l : List Char) :
    l = stripR l ++ (l.reverse.takeWhile pyWS).reverse := by
  rw [stripR]
  conv_lhs => rw [← List.reverse_reverse l, ← List.takeWhile_append_dropWhile pyWS l.reverse]
  rw [List.reverse_append]

/-- Python's `strip` is idempotent. -/
theorem pyStrip_idem (l : List Char) : pyStrip (pyStrip l) = pyStrip l := by
  rw [pyStrip, pyStrip]
  have hm : stripL (stripL l) = stripL l := by
    rw [stripL, stripL, dropWhile_dropWhile]
  have hpfx : stripL (stripR (stripL l)) = stripR (stripL l) := by
    rw [stripL]
    exact dropWhile_eq_self_of_append (by rw [← stripL, hm]) (stripR_append (stripL l))
  rw [hpfx, stripR, stripR, List.reverse_reverse, dropWhile_dropWhile]

/-- A Hangul syllable is not whitespace. -/
theorem hangul_not_ws {c : Char} (h : isHangulChar c = true) : pyWS c = false := by
  cases hw : pyWS c
  · rfl
  · exfalso
    have hd := of_decide_eq_true hw
    rcases hd with e | e | e | e | e | e <;> subst e <;> exact absurd h (by decide)

end ContentClassifier

namespace ContentClassifier

set_option maxHeartbeats 1000000 in
/-- C10: whenever `clean_category` returns a label, the label is already
stripped (no surrounding whitespace), at least two characters long, contains
at least one Hangul syllable, and contains no filesystem-reserved character
and no straight or curly quote. -/
theorem c10_normalizer_output (s r : String) (h : clean_category s = some r) :
    pyStrip r.data = r.data ∧ 2 ≤ r.data.length ∧
    r.data.any isHangulChar = true ∧
    ∀ c ∈ r.data, c ∉ reservedChars ∧ c ∉ quoteChars := by
  rw [clean_category] at h
  cases hc : cleanCore s.data with
  | none => rw [hc] at h; cases h
  | some l =>
    rw [hc, Option.map_some'] at h
    have hr : r.data = l := by cases h; rfl
    rw [cleanCore] at hc
    split at hc
    case isTrue hAny =>
      split at hc
      · cases hc
      case isFalse hRej =>
        cases hc
        push_neg at hRej
        obtain ⟨hne, hnb, hlen⟩ := hRej
        refine ⟨?_, ?_, ?_, ?_⟩
        · rw [hr, pyStrip_idem]
        · rw [hr]; omega
        · rw [hr]
          obtain ⟨c, hcmem, hch⟩ := List.any_eq_true.mp hAny
          exact List.any_eq_true.mpr
            ⟨c, mem_pyStrip_of_mem hcmem (hangul_not_ws hch), hch⟩
        · intro c hcmem
          rw [hr] at hcmem
          have hcl := mem_of_mem_pyStrip hcmem
          rw [cleanLine] at hcl
          have h1 := List.mem_filter.mp hcl
          have h2 := List.mem_filter.mp h1.1
          refine ⟨?_, ?_⟩
          · have := h1.2
            simpa using this
          · have := h2.2
            simpa using this
    · cases hc

set_option maxHeartbeats 1000000 in
/-- Concrete instantiation of `c10_normalizer_output` at a clean label. -/
theorem c10_normalizer_output_witness :
    pyStrip ("가나" : String).data = ("가나" : String).data ∧
    2 ≤ ("가나" : String).data.length ∧
    ("가나" : String).data.any isHangulChar = true ∧
    ∀ c ∈ ("가나" : String).data, c ∉ reservedChars ∧ c ∉ quoteChars :=
  c10_normalizer_output "가나" "가나" (by decide)

end ContentClassifier

namespace ContentClassifier

/-- A label pattern that does not begin the line leaves it unchanged. -/
theorem stripLabel_not {lab l : List Char} (h : leadsWith lab l = false) :
    stripLabel lab l = l := by
  rw [stripLabel, if_neg]
  rw [h]
  exact Bool.false_ne_true

/-- A pattern of two or more characters cannot begin a single-character
line. -/
theorem leadsWith_long_single (lab : List Char) (hlab : 2 ≤ lab.length) (c : Char) :
    leadsWith lab [c] = false := by
  match lab, hlab with
  | a :: b :: rest, _ => simp [leadsWith]

/-- `clean_category` maps every single character to `none`: the surviving
text is at most one character, so it fails the Hangul check or the
minimum-length check. -/
theorem cleanCore_single (c : Char) : cleanCore [c] = none := by
  by_cases hw : pyWS c = true
  · have hps : pyStrip [c] = [] := by simp [pyStrip, stripL, stripR, hw]
    have hcl : cleanLine [c] = [] := by
      simp only [cleanLine, hps]
      rfl
    rw [cleanCore, hcl]
    rfl
  · rw [Bool.not_eq_true] at hw
    have hps : pyStrip [c] = [c] := by simp [pyStrip, stripL, stripR, hw]
    have hnl : ¬ c = '\n' := by
      intro e
      subst e
      simp [pyWS] at hw
    have hfl : firstLine [c] = [c] := by simp [firstLine, hnl]
    have h1 : stripLabel "답변".data [c] = [c] :=
      stripLabel_not (leadsWith_long_single _ (by decide) c)
    have h2 : stripLabel "답을 입력하세요".data [c] = [c] :=
      stripLabel_not (leadsWith_long_single _ (by decide) c)
    have h3 : stripLabel "파일 이름".data [c] = [c] :=
      stripLabel_not (leadsWith_long_single _ (by decide) c)
    have h4 : stripLabel "출력".data [c] = [c] :=
      stripLabel_not (leadsWith_long_single _ (by decide) c)
    have h5 : stripLabel "예시 출력".data [c] = [c] :=
      stripLabel_not (leadsWith_long_single _ (by decide) c)
    by_cases hq : c ∈ quoteChars
    · have hrq : removeQuotes [c] = [] := by simp [removeQuotes, hq]
      have hcl : cleanLine [c] = [] := by
        simp only [cleanLine, hps, hfl, h1, h2, h3, h4, h5, hrq]
        rfl
      rw [cleanCore, hcl]
      rfl
    · have hrq : removeQuotes [c] = [c] := by simp [removeQuotes, hq]
      by_cases hr : c ∈ reservedChars
      · have hrr : removeReserved [c] = [] := by simp [removeReserved, hr]
        have hcl : cleanLine [c] = [] := by
          simp only [cleanLine, hps, hfl, h1, h2, h3, h4, h5, hrq, hrr]
        rw [cleanCore, hcl]
        rfl
      · have hrr : removeReserved [c] = [c] := by simp [removeReserved, hr]
        have hcl : cleanLine [c] = [c] := by
          simp only [cleanLine, hps, hfl, h1, h2, h3, h4, h5, hrq, hrr]
        rw [cleanCore, hcl]
        by_cases hh : isHangulChar c = true
        · rw [if_pos (by simp [hh])]
          rw [if_pos (Or.inr (Or.inr (by rw [hps]; simp)))]
        · rw [if_neg (by simp [hh])]

/-- A string the cleaning pipeline leaves untouched: no surrounding
whitespace, no newline in view, none of the label patterns in front, and no
quote or reserved character anywhere. -/
@[reducible] def CleanShape (s : String) : Prop :=
  pyStrip s.data = s.data ∧ firstLine s.data = s.data ∧
  leadsWith "답변".data s.data = false ∧
  leadsWith "답을 입력하세요".data s.data = false ∧
  leadsWith "파일 이름".data s.data = false ∧
  leadsWith "출력".data s.data = false ∧
  leadsWith "예시 출력".data s.data = false ∧
  removeQuotes s.data = s.data ∧ removeReserved s.data = s.data

/-- A clean label with Hangul, off the banned list and of length two or
more, is returned unchanged. -/
theorem cleanCore_accepts {s : String} (hshape : CleanShape s)
    (hany : s.data.any isHangulChar = true)
    (hban : s.data.map lowerChar ∉ bannedWords)
    (hlen : 2 ≤ s.data.length) :
    clean_category s = some s := by
  obtain ⟨hps, hfl, hl1, hl2, hl3, hl4, hl5, hq, hr⟩ := hshape
  have hline : cleanLine s.data = s.data := by
    simp only [cleanLine, hps, hfl, stripLabel_not hl1, stripLabel_not hl2,
      stripLabel_not hl3, stripLabel_not hl4, stripLabel_not hl5, hq, hr]
  have hcond : ¬(s.data = [] ∨ s.data.map lowerChar ∈ bannedWords ∨
      (pyStrip s.data).length < 2) := by
    push_neg
    refine ⟨?_, hban, ?_⟩
    · intro e
      rw [e] at hlen
      simp at hlen
    · rw [hps]
      omega
  rw [clean_category, cleanCore, hline, if_pos hany, if_neg hcond, hps]
  rfl

set_option maxHeartbeats 1000000 in
/-- C9: the normalizer returns `none` on the banned labels `기타` and `모름`,
on the empty string, and on every single-character string; and it returns the
label itself for every clean input (`CleanShape`) of two or more characters
that contains a Hangul syllable and is not a banned word. -/
theorem c9_normalizer_reject_accept :
    clean_category "기타" = none ∧ clean_category "모름" = none ∧
    clean_category "" = none ∧
    (∀ c : Char, clean_category (String.mk [c]) = none) ∧
    (∀ s : String, CleanShape s → s.data.any isHangulChar = true →
      s.data.map lowerChar ∉ bannedWords → 2 ≤ s.data.length →
      clean_category s = some s) := by
  refine ⟨by decide, by decide, rfl, ?_, ?_⟩
  · intro c
    show (cleanCore [c]).map String.mk = none
    rw [cleanCore_single c]
    rfl
  · intro s hshape hany hban hlen
    exact cleanCore_accepts hshape hany hban hlen

set_option maxHeartbeats 1000000 in
/-- Concrete instantiation of `c9_normalizer_reject_accept`: the rejection
of a one-character input and the acceptance of the clean label `가나다`. -/
theorem c9_normalizer_reject_accept_witness :
    clean_category (String.mk ['x']) = none ∧ clean_category "가나다" = some "가나다" :=
  ⟨c9_normalizer_reject_accept.2.2.2.1 'x',
   c9_normalizer_reject_accept.2.2.2.2 "가나다" (by decide) (by decide) (by decide)
     (by decide)⟩

end ContentClassifier

namespace ContentClassifier

set_option maxHeartbeats 1000000 in
/-- C8: grouping is seed-relative, not transitively closed. For filenames
`A`, `B`, `C` in that order with `A` similar to `B`, `B` similar to `C`, but
`A` not similar enough to `C`, the grouping puts `A` and `B` together and
leaves `C` in its own group: `C` is compared only against the seed `A`,
never against `B`. -/
theorem c8_seed_relative (A B C : String) (t : Rat)
    (hAB : simRatio (baseName A) (baseName B) ≥ t)
    (hBC : simRatio (baseName B) (baseName C) ≥ t)
    (hAC : simRatio (baseName A) (baseName C) < t) :
    group_similar_filenames [A, B, C] t = [[A, B], [C]] := by
  have hac : ¬(simRatio (baseName A) (baseName C) ≥ t) := not_le.mpr hAC
  clear hBC
  simp [group_similar_filenames, seedStep, scanStep, hAB, hac, List.range_succ,
    List.range']

set_option maxHeartbeats 1000000 in
/-- Concrete instantiation of `c8_seed_relative` with threshold 1/2:
ratio("ab","abcd") = ratio("abcd","cd") = 2/3, ratio("ab","cd") = 0. -/
theorem c8_seed_relative_witness :
    group_similar_filenames ["ab", "abcd", "cd"] (1 / 2) = [["ab", "abcd"], ["cd"]] := by
  have hb1 : baseName "ab" = "ab" := by decide
  have hb2 : baseName "abcd" = "abcd" := by decide
  have hb3 : baseName "cd" = "cd" := by decide
  have hAB : simRatio (baseName "ab") (baseName "abcd") ≥ (1 / 2 : Rat) := by
    rw [hb1, hb2, simRatio]
    have hm : matchingTotal "ab".data "abcd".data 3 0 2 0 4 = 2 := by decide
    norm_num [show "ab".data.length = 2 from rfl, show "abcd".data.length = 4 from rfl, hm]
  have hBC : simRatio (baseName "abcd") (baseName "cd") ≥ (1 / 2 : Rat) := by
    rw [hb2, hb3, simRatio]
    have hm : matchingTotal "abcd".data "cd".data 5 0 4 0 2 = 2 := by decide
    norm_num [show "abcd".data.length = 4 from rfl, show "cd".data.length = 2 from rfl, hm]
  have hAC : simRatio (baseName "ab") (baseName "cd") < (1 / 2 : Rat) := by
    rw [hb1, hb3, simRatio]
    have hm : matchingTotal "ab".data "cd".data 3 0 2 0 2 = 0 := by decide
    norm_num [show "ab".data.length = 2 from rfl, show "cd".data.length = 2 from rfl, hm]
  exact c8_seed_relative "ab" "abcd" "cd" (1 / 2) hAB hBC hAC

end ContentClassifier

namespace ContentClassifier

/-- The paths whose index the `assigned` list still marks false, in index
order: the paths the grouping has not yet placed into a group. -/
def unassignedPaths (file_paths : List String) (asg : List Bool) : List String :=
  (List.range file_paths.length).filterMap
    (fun k => if asg.getD k false then none else some (file_paths.getD k ""))

/-- Setting an in-range flag makes its `getD` true. -/
theorem getD_set_true_self {asg : List Bool} {j : Nat} (h : j < asg.length) :
    (asg.set j true).getD j false = true := by
  rw [List.getD_eq_getElem?_getD, List.getElem?_set, if_pos rfl, if_pos h]
  rfl

/-- Setting one flag leaves the others as they were. -/
theorem getD_set_ne (asg : List Bool) (v : Bool) {j k : Nat} (h : ¬ j = k) :
    (asg.set j v).getD k false = asg.getD k false := by
  rw [List.getD_eq_getElem?_getD, List.getElem?_set, if_neg h,
    ← List.getD_eq_getElem?_getD]

/-- A true flag survives any `set _ true`. -/
theorem getD_set_true_mono {asg : List Bool} {j k : Nat}
    (h : asg.getD k false = true) : (asg.set j true).getD k false = true := by
  by_cases hjk : j = k
  · subst hjk
    by_cases hj : j < asg.length
    · exact getD_set_true_self hj
    · exfalso
      rw [List.getD_eq_getElem?_getD, List.getElem?_eq_none (Nat.le_of_not_lt hj)] at h
      cases h
  · rw [getD_set_ne asg true hjk]
    exact h

/-- Every flag of the all-false list reads false. -/
theorem replicate_false_getD (n k : Nat) :
    (List.replicate n false).getD k false = false := by
  rw [List.getD_eq_getElem?_getD, List.getElem?_replicate]
  by_cases h : k < n
  · rw [if_pos h]; rfl
  · rw [if_neg h]; rfl

/-- Reading every position of a list in order reproduces the list. -/
theorem map_getD_range (P : List String) :
    (List.range P.length).map (fun k => P.getD k "") = P := by
  induction P with
  | nil => rfl
  | cons x xs ih =>
    rw [List.length_cons, List.range_succ_eq_map, List.map_cons, List.map_map]
    have hcomp : ∀ k ∈ List.range xs.length,
        ((fun k => (x :: xs).getD k "") ∘ Nat.succ) k = (fun k => xs.getD k "") k :=
      fun k _ => rfl
    rw [List.map_congr_left hcomp, ih]
    rfl

/-- With no flag set, the unassigned paths are the whole input. -/
theorem unassignedPaths_replicate (P : List String) :
    unassignedPaths P (List.replicate P.length false) = P := by
  rw [unassignedPaths]
  have h1 : ∀ k ∈ List.range P.length,
      (if (List.replicate P.length false).getD k false then none
        else some (P.getD k "")) = (fun k => some (P.getD k "")) k := by
    intro k _
    rw [replicate_false_getD]
    rfl
  rw [List.filterMap_congr h1]
  show List.filterMap (some ∘ fun k => P.getD k "") (List.range P.length) = P
  rw [List.filterMap_eq_map, map_getD_range]

/-- Assigning one unassigned in-range index removes exactly that path from
the unassigned paths, up to reordering. -/
theorem unassignedPaths_set_perm {P : List String} {asg : List Bool} {j : Nat}
    (hj : j < P.length) (hlen : asg.length = P.length)
    (hun : asg.getD j false = false) :
    (unassignedPaths P asg).Perm
      (P.getD j "" :: unassignedPaths P (asg.set j true)) := by
  have hsplit : List.range P.length =
      List.range' 0 j ++ j :: List.range' (j + 1) (P.length - (j + 1)) := by
    rw [List.range_eq_range']
    conv_lhs => rw [show P.length = (P.length - j) + j from (Nat.sub_add_cancel hj.le).symm]
    rw [← List.range'_append 0 j (P.length - j) 1]
    congr 1
    · rw [show 0 + 1 * j = j by omega,
        show P.length - j = (P.length - (j + 1)) + 1 by omega, List.range'_succ]
  rw [unassignedPaths, unassignedPaths, hsplit, List.filterMap_append,
    List.filterMap_append, List.filterMap_cons, List.filterMap_cons]
  have hset : (asg.set j true).getD j false = true := getD_set_true_self (hlen ▸ hj)
  rw [hun, hset]
  have hcong1 : ∀ k ∈ List.range' 0 j,
      (if asg.getD k false then none else some (P.getD k "")) =
      (if (asg.set j true).getD k false then none else some (P.getD k "")) := by
    intro k hk
    have hklt : k < j := by
      have := (List.mem_range'_1.mp hk).2
      omega
    rw [getD_set_ne asg true (by omega)]
  have hcong2 : ∀ k ∈ List.range' (j + 1) (P.length - (j + 1)),
      (if asg.getD k false then none else some (P.getD k "")) =
      (if (asg.set j true).getD k false then none else some (P.getD k "")) := by
    intro k hk
    have hkgt : j + 1 ≤ k := (List.mem_range'_1.mp hk).1
    rw [getD_set_ne asg true (by omega)]
  rw [List.filterMap_congr hcong1, List.filterMap_congr hcong2]
  exact List.perm_middle

end ContentClassifier

namespace ContentClassifier

/-- The inner scan never changes the flag list's length. -/
theorem scan_fold_length (P F : List String) (t : Rat) (fname : String) (J : List Nat) :
    ∀ gb : List String × List Bool,
    (List.foldl (scanStep P F t fname) gb J).2.length = gb.2.length := by
  induction J with
  | nil => intro gb; rfl
  | cons j J ih =>
    intro gb
    rw [List.foldl_cons, ih, scanStep]
    split
    · rfl
    · split
      · exact List.length_set gb.2 j true
      · rfl

/-- The inner scan never clears a flag. -/
theorem scan_fold_mono (P F : List String) (t : Rat) (fname : String) (J : List Nat) :
    ∀ gb (k : Nat), gb.2.getD k false = true →
    (List.foldl (scanStep P F t fname) gb J).2.getD k false = true := by
  induction J with
  | nil => intro gb k h; exact h
  | cons j J ih =>
    intro gb k h
    rw [List.foldl_cons]
    refine ih _ k ?_
    rw [scanStep]
    split
    · exact h
    · split
      · exact getD_set_true_mono h
      · exact h

/-- The inner scan moves paths from the unassigned pool into the group and
does nothing else: group plus pool stays a permutation of what it was. -/
theorem scan_fold_perm (P F : List String) (t : Rat) (fname : String) (J : List Nat) :
    ∀ gb : List String × List Bool, (∀ j ∈ J, j < P.length) → gb.2.length = P.length →
    ((List.foldl (scanStep P F t fname) gb J).1 ++
      unassignedPaths P (List.foldl (scanStep P F t fname) gb J).2).Perm
      (gb.1 ++ unassignedPaths P gb.2) := by
  induction J with
  | nil => intro gb _ _; exact List.Perm.refl _
  | cons j J ih =>
    intro gb hJ hlen
    rw [List.foldl_cons]
    have hj : j < P.length := hJ j (List.mem_cons_self _ _)
    have hJ2 : ∀ i ∈ J, i < P.length := fun i hi => hJ i (List.mem_cons_of_mem _ hi)
    rw [scanStep]
    by_cases h1 : gb.2.getD j false = true
    · rw [if_pos h1]
      exact ih gb hJ2 hlen
    · rw [if_neg h1]
      rw [Bool.not_eq_true] at h1
      by_cases h2 : simRatio fname (F.getD j "") ≥ t
      · rw [if_pos h2]
        have hstep := ih (gb.1 ++ [P.getD j ""], gb.2.set j true) hJ2
          (by rw [List.length_set]; exact hlen)
        refine hstep.trans ?_
        rw [List.append_assoc]
        exact List.Perm.append_left _ (unassignedPaths_set_perm hj hlen h1).symm
      · rw [if_neg h2]
        exact ih gb hJ2 hlen

/-- A seed step never changes the flag list's length. -/
theorem seedStep_length (P F : List String) (t : Rat) (n : Nat)
    (acc : List (List String) × List Bool) (i : Nat) :
    (seedStep P F t n acc i).2.length = acc.2.length := by
  rw [seedStep]
  split
  · rfl
  · dsimp only
    rw [scan_fold_length]
    exact List.length_set acc.2 i true

/-- A seed step never clears a flag. -/
theorem seedStep_mono (P F : List String) (t : Rat) (n : Nat)
    (acc : List (List String) × List Bool) (i k : Nat)
    (h : acc.2.getD k false = true) :
    (seedStep P F t n acc i).2.getD k false = true := by
  rw [seedStep]
  split
  · exact h
  · dsimp only
    exact scan_fold_mono P F t _ _ _ k (getD_set_true_mono h)

/-- The outer fold never clears a flag. -/
theorem seed_fold_mono (P F : List String) (t : Rat) (n : Nat) (I : List Nat) :
    ∀ acc (k : Nat), acc.2.getD k false = true →
    (List.foldl (seedStep P F t n) acc I).2.getD k false = true := by
  induction I with
  | nil => intro acc k h; exact h
  | cons i I ih =>
    intro acc k h
    rw [List.foldl_cons]
    exact ih _ k (seedStep_mono P F t n acc i k h)

/-- The outer fold never changes the flag list's length. -/
theorem seed_fold_length (P F : List String) (t : Rat) (n : Nat) (I : List Nat) :
    ∀ acc, (List.foldl (seedStep P F t n) acc I).2.length = acc.2.length := by
  induction I with
  | nil => intro acc; rfl
  | cons i I ih =>
    intro acc
    rw [List.foldl_cons, ih, seedStep_length]

/-- The outer fold moves paths from the unassigned pool into groups and does
nothing else: the flattened groups plus the pool stay a permutation of what
they were. -/
theorem seed_fold_perm (P F : List String) (t : Rat) (I : List Nat) :
    ∀ acc : List (List String) × List Bool,
    (∀ i ∈ I, i < P.length) → acc.2.length = P.length →
    ((List.foldl (seedStep P F t P.length) acc I).1.flatten ++
      unassignedPaths P (List.foldl (seedStep P F t P.length) acc I).2).Perm
      (acc.1.flatten ++ unassignedPaths P acc.2) := by
  induction I with
  | nil => intro acc _ _; exact List.Perm.refl _
  | cons i I ih =>
    intro acc hI hlen
    rw [List.foldl_cons]
    have hi : i < P.length := hI i (List.mem_cons_self _ _)
    have hI2 : ∀ j ∈ I, j < P.length := fun j hj => hI j (List.mem_cons_of_mem _ hj)
    rw [seedStep]
    by_cases ha : acc.2.getD i false = true
    · rw [if_pos ha]
      exact ih acc hI2 hlen
    · rw [if_neg ha]
      rw [Bool.not_eq_true] at ha
      dsimp only
      have hJ : ∀ j ∈ List.range' (i + 1) (P.length - (i + 1)), j < P.length := by
        intro j hj
        have := (List.mem_range'_1.mp hj).2
        omega
      have hlen2 : ((acc.2.set i true) : List Bool).length = P.length := by
        rw [List.length_set]; exact hlen
      have hscan := scan_fold_perm P F t (F.getD i "")
        (List.range' (i + 1) (P.length - (i + 1)))
        ([P.getD i ""], acc.2.set i true) hJ hlen2
      have hswap := unassignedPaths_set_perm hi hlen ha
      have hstep := ih (acc.1 ++ [(List.foldl (scanStep P F t (F.getD i ""))
          ([P.getD i ""], acc.2.set i true)
          (List.range' (i + 1) (P.length - (i + 1)))).1],
        (List.foldl (scanStep P F t (F.getD i ""))
          ([P.getD i ""], acc.2.set i true)
          (List.range' (i + 1) (P.length - (i + 1)))).2) hI2
        (by rw [scan_fold_length]; exact hlen2)
      refine hstep.trans ?_
      rw [List.flatten_append, List.append_assoc]
      refine List.Perm.append_left _ ?_
      have hfl : ([(List.foldl (scanStep P F t (F.getD i ""))
          ([P.getD i ""], acc.2.set i true)
          (List.range' (i + 1) (P.length - (i + 1)))).1] : List (List String)).flatten =
          (List.foldl (scanStep P F t (F.getD i ""))
          ([P.getD i ""], acc.2.set i true)
          (List.range' (i + 1) (P.length - (i + 1)))).1 := by
        simp
      rw [hfl]
      exact hscan.trans hswap.symm

/-- After the outer fold, every index it visited is assigned. -/
theorem seed_fold_assigned (P F : List String) (t : Rat) (I : List Nat) :
    ∀ acc : List (List String) × List Bool,
    acc.2.length = P.length → (∀ i ∈ I, i < P.length) →
    ∀ k ∈ I, (List.foldl (seedStep P F t P.length) acc I).2.getD k false = true := by
  induction I with
  | nil => intro acc _ _ k hk; cases hk
  | cons i I ih =>
    intro acc hlen hI k hk
    rw [List.foldl_cons]
    rcases List.mem_cons.mp hk with he | hk2
    · subst he
      refine seed_fold_mono P F t P.length I _ k ?_
      rw [seedStep]
      split
      case isTrue h => exact h
      case isFalse h =>
        dsimp only
        refine scan_fold_mono P F t _ _ _ k ?_
        exact getD_set_true_self (by rw [hlen]; exact hI k (List.mem_cons_self _ _))
    · exact ih _ (by rw [seedStep_length]; exact hlen)
        (fun j hj => hI j (List.mem_cons_of_mem _ hj)) k hk2

end ContentClassifier

namespace ContentClassifier

/-- C7: the grouping partitions its input exactly. The concatenation of the
returned groups is a permutation of the input list (every input path lands
in exactly one group, multiplicity included), and for duplicate-free input
the groups are pairwise disjoint. -/
theorem c7_partition (file_paths : List String) (threshold : Rat) :
    (group_similar_filenames file_paths threshold).flatten.Perm file_paths ∧
    (file_paths.Nodup →
      (group_similar_filenames file_paths threshold).Pairwise List.Disjoint) := by
  have hn : (file_paths.map baseName).length = file_paths.length :=
    List.length_map file_paths baseName
  have hmain : (group_similar_filenames file_paths threshold).flatten.Perm file_paths := by
    rw [group_similar_filenames, hn]
    have hI : ∀ i ∈ List.range file_paths.length, i < file_paths.length :=
      fun i hi => List.mem_range.mp hi
    have hlen0 : (List.replicate file_paths.length false : List Bool).length =
        file_paths.length := List.length_replicate _ _
    have hperm := seed_fold_perm file_paths (file_paths.map baseName) threshold
      (List.range file_paths.length) ([], List.replicate file_paths.length false) hI hlen0
    have hassigned := seed_fold_assigned file_paths (file_paths.map baseName) threshold
      (List.range file_paths.length) ([], List.replicate file_paths.length false) hlen0 hI
    have hempty : unassignedPaths file_paths
        (List.foldl (seedStep file_paths (file_paths.map baseName) threshold
            file_paths.length)
          ([], List.replicate file_paths.length false)
          (List.range file_paths.length)).2 = [] := by
      rw [unassignedPaths, List.filterMap_eq_nil_iff]
      intro k hk
      rw [hassigned k hk]
      rfl
    rw [hempty, List.append_nil, unassignedPaths_replicate] at hperm
    simpa using hperm
  refine ⟨hmain, fun hnd => ?_⟩
  have hjoin : (group_similar_filenames file_paths threshold).flatten.Nodup :=
    (hmain.nodup_iff).mpr hnd
  exact (List.nodup_flatten.mp hjoin).2

/-- Concrete instantiation of `c7_partition` on a two-path input. -/
theorem c7_partition_witness :
    (group_similar_filenames ["x/a.png", "y/b.pdf"] (4 / 5)).flatten.Perm
      ["x/a.png", "y/b.pdf"] ∧
    (group_similar_filenames ["x/a.png", "y/b.pdf"] (4 / 5)).Pairwise List.Disjoint :=
  ⟨(c7_partition ["x/a.png", "y/b.pdf"] (4 / 5)).1,
   (c7_partition ["x/a.png", "y/b.pdf"] (4 / 5)).2 (by decide)⟩

end ContentClassifier
